import Mathlib

/-
Verification of the layout core of the crafter-station/flow repository.

Shallow embedding of:
  packages/flow/src/core/hierarchy-graph.ts   (HierarchyGraph class)
  packages/flow/src/svg/path-builder.ts       (compilePath and draw commands)
  packages/flow/src/components/edge-path.tsx  (buildEdgePath, isCorner, roundCorner)
  the earlier edge-router variant of the same class (legacyComputeEdgePath)

JavaScript numbers are modelled as rationals (ℚ); the arithmetic performed by
the layout engine is addition, subtraction, multiplication, division by
constants and comparisons, all exact on the inputs considered.  Fallible
TypeScript code (the `ensure` helper, which throws) is modelled with
`Except String`.
-/

namespace Flow

/-- 2D coordinate (types.ts `Coordinate`). -/
structure Coordinate where
  x : ℚ
  y : ℚ
  deriving DecidableEq, Repr

/-- Node dimensions (types.ts `Dimensions`). -/
structure Dimensions where
  width : ℚ
  height : ℚ
  deriving DecidableEq, Repr

/-- Flow direction (types.ts, the "vertical" / "horizontal" union). -/
inductive Direction where
  | vertical
  | horizontal
  deriving DecidableEq, Repr

/-- Hierarchical input node (types.ts `HierarchyNode`): an id, an optional
per-node direction override, and an ordered children list.  The TypeScript
optional `children` array and an empty array are observationally identical in
the layout core (every consumer tests `!node.children ||
node.children.length === 0`), so both are modelled as `[]`. -/
inductive HNode where
  | node (id : String) (direction : Option Direction) (children : List HNode)

def HNode.id : HNode → String
  | .node i _ _ => i

def HNode.direction : HNode → Option Direction
  | .node _ d _ => d

def HNode.children : HNode → List HNode
  | .node _ _ cs => cs

/-- A node together with its computed centre position and depth
(types.ts `PlacedNode`). -/
structure PlacedNode where
  data : HNode
  position : Coordinate
  depth : ℕ

/-- A parent/child connector with its routed waypoints (types.ts `Edge`). -/
structure Edge where
  source : HNode
  target : HNode
  waypoints : List Coordinate

/-- Resolved tuning block (GraphConfig.tuning with all defaults applied,
as stored in `this.settings.tuning`). -/
structure TuningSettings where
  indent : ℚ
  verticalShift : ℚ
  compression : ℚ
  siblingFactor : ℚ

/-- Resolved vertical edge-routing block (`this.settings.edges.vertical`). -/
structure VerticalEdgeSettings where
  spineOffset : ℚ
  spineGap : ℚ

/-- Resolved edge-routing block (`this.settings.edges`). -/
structure EdgeSettings where
  vertical : VerticalEdgeSettings

/-- Fully resolved configuration, the `this.settings` field of the class. -/
structure Settings where
  gap : Coordinate
  direction : Direction
  tuning : TuningSettings
  edges : EdgeSettings

/-- The size registry `this.sizes : Map<string, Dimensions>`, modelled as an
association list with at most one entry per key (the invariant `registerSize`
maintains); `Map.size` is then the list length. -/
abbrev SizeMap := List (String × Dimensions)

/-- `Map.get(id)` on the size registry. -/
def SizeMap.get? (m : SizeMap) (k : String) : Option Dimensions :=
  (m.find? (fun e => e.1 = k)).map (fun e => e.2)

/-- `registerSize(id, size)`: `Map.set`, an upsert that overwrites the entry
for an existing key and appends a fresh entry otherwise. -/
def registerSize (m : SizeMap) (k : String) (size : Dimensions) : SizeMap :=
  if (m.find? (fun e => e.1 = k)).isSome then
    m.map (fun e => if e.1 = k then (k, size) else e)
  else
    m ++ [(k, size)]

/-- An instance of the `HierarchyGraph` class: its resolved settings and its
size registry. -/
structure HierarchyGraph where
  settings : Settings
  sizes : SizeMap

/-- Result of `compute` (types.ts `GraphResult`). -/
structure GraphResult where
  nodes : List PlacedNode
  edges : List Edge

/-- The `ensure(condition, message)` assertion helper: throwing is modelled
as `Except.error`. -/
def ensure (condition : Bool) (message : String) : Except String Unit :=
  if condition then Except.ok () else Except.error message

/-- `ensure(x, message)` applied to a possibly-undefined value, followed by
the use of that value: returns the value or throws. -/
def ensureSome (o : Option α) (message : String) : Except String α :=
  match o with
  | some v => Except.ok v
  | none => Except.error message

theorem bindE_ok (a : α) (f : α → Except String β) :
    (Except.ok a : Except String α) >>= f = f a := rfl

theorem bindE_error (e : String) (f : α → Except String β) :
    (Except.error e : Except String α) >>= f = Except.error e := rfl

theorem pureE (a : α) : (pure a : Except String α) = Except.ok a := rfl

theorem bindE_eq_ok {x : Except String α} {f : α → Except String β} {b : β} :
    x >>= f = Except.ok b ↔ ∃ a, x = Except.ok a ∧ f a = Except.ok b := by
  cases x with
  | error e => simp [bindE_error]
  | ok a => simp [bindE_ok]

theorem ensureSome_eq_ok {o : Option α} {m : String} {a : α} :
    ensureSome o m = Except.ok a ↔ o = some a := by
  cases o <;> simp [ensureSome]

mutual

/-- `traverse(root)`: depth-first preorder enumeration of the tree. -/
def HNode.traverse : HNode → List HNode
  | .node i d cs => .node i d cs :: HNode.traverseList cs

/-- The children loop of `traverse`: `for (const child of root.children)
result.push(...this.traverse(child))`. -/
def HNode.traverseList : List HNode → List HNode
  | [] => []
  | c :: cs => HNode.traverse c ++ HNode.traverseList cs

end

/-- `isReady(root)`: every node of the tree has a registered size. -/
def isReady (g : HierarchyGraph) (root : HNode) : Bool :=
  (HNode.traverse root).all (fun n => (SizeMap.get? g.sizes n.id).isSome)

/-- `resolveDirection(node)`: the direction override of the node itself, or the
configured default. -/
def resolveDirection (g : HierarchyGraph) (n : HNode) : Direction :=
  n.direction.getD g.settings.direction

/-- `Math.max(...values)` on the (always nonempty) list of child measures. -/
def listMax : List ℚ → ℚ
  | [] => 0
  | a :: as => as.foldl max a

mutual

/-- `measureWidth(node)`: width required by the whole subtree of the node. -/
def measureWidth (g : HierarchyGraph) : HNode → Except String ℚ
  | .node i d cs => do
    let size ← ensureSome (SizeMap.get? g.sizes i) ("Missing size for node " ++ i)
    if cs.isEmpty then
      pure size.width
    else
      match resolveDirection g (.node i d cs) with
      | .horizontal => do
        let childWidths ← measureWidthList g cs
        pure (max size.width (childWidths.sum + ((cs.length : ℚ) - 1) * g.settings.gap.x))
      | .vertical => do
        let childWidths ← measureWidthList g cs
        pure (size.width + g.settings.gap.x + listMax childWidths * g.settings.tuning.compression)

/-- `node.children.map((c) => this.measureWidth(c))`. -/
def measureWidthList (g : HierarchyGraph) : List HNode → Except String (List ℚ)
  | [] => pure []
  | c :: cs => do
    let w ← measureWidth g c
    let ws ← measureWidthList g cs
    pure (w :: ws)

end

mutual

/-- `measureHeight(node)`: height required by the whole subtree of the node. -/
def measureHeight (g : HierarchyGraph) : HNode → Except String ℚ
  | .node i d cs => do
    let size ← ensureSome (SizeMap.get? g.sizes i) ("Missing size for node " ++ i)
    if cs.isEmpty then
      pure size.height
    else
      match resolveDirection g (.node i d cs) with
      | .vertical => do
        let childHeights ← measureHeightList g cs
        pure (max size.height (childHeights.sum + ((cs.length : ℚ) - 1) * g.settings.gap.y))
      | .horizontal => do
        let childHeights ← measureHeightList g cs
        pure (size.height + g.settings.gap.y + listMax childHeights)

/-- `node.children.map((c) => this.measureHeight(c))`. -/
def measureHeightList (g : HierarchyGraph) : List HNode → Except String (List ℚ)
  | [] => pure []
  | c :: cs => do
    let h ← measureHeight g c
    let hs ← measureHeightList g cs
    pure (h :: hs)

end

/-- `computeSpreadX(parentX, idx, widths)`: X centre for child `idx` under a
horizontal spread; the loop accumulating preceding widths and gaps is the
range sum. -/
def computeSpreadX (g : HierarchyGraph) (parentX : ℚ) (idx : ℕ) (widths : List ℚ) : ℚ :=
  if widths.length = 1 then parentX
  else
    parentX - (widths.sum + ((widths.length : ℚ) - 1) * g.settings.gap.x) / 2
      + (Finset.range idx).sum (fun i => widths.getD i 0 + g.settings.gap.x)
      + widths.getD idx 0 / 2

/-- `computeStackY(startY, idx, heights)`: Y centre for child `idx` under a
vertical stack. -/
def computeStackY (g : HierarchyGraph) (startY : ℚ) (idx : ℕ) (heights : List ℚ) : ℚ :=
  startY + heights.getD 0 0 / 2
    + (Finset.range idx).sum
        (fun i => heights.getD i 0 / 2
          + g.settings.gap.y * g.settings.tuning.siblingFactor
          + heights.getD (i + 1) 0 / 2)

mutual

/-- `placeNodes(node, depth, anchor)`: places the node (the root always at the
origin, any other node at its anchor) and recursively all of its descendants,
returning the depth-first preorder list of placed nodes. -/
def placeNodes (g : HierarchyGraph) : HNode → ℕ → Coordinate → Except String (List PlacedNode)
  | .node i d cs, depth, anchor => do
    let nodeSize ← ensureSome (SizeMap.get? g.sizes i) ("Missing size for node " ++ i)
    let pos := if depth = 0 then Coordinate.mk 0 0 else anchor
    if cs.isEmpty then
      pure [⟨.node i d cs, pos, depth⟩]
    else
      match resolveDirection g (.node i d cs) with
      | .vertical => do
        let heights ← measureHeightList g cs
        let rest ← placeChildrenStack g pos nodeSize heights depth cs 0
        pure (⟨.node i d cs, pos, depth⟩ :: rest)
      | .horizontal => do
        let widths ← measureWidthList g cs
        let rest ← placeChildrenSpread g pos nodeSize widths depth cs 0
        pure (⟨.node i d cs, pos, depth⟩ :: rest)

/-- The `forEach` loop of the vertical branch of `placeNodes`. -/
def placeChildrenStack (g : HierarchyGraph) (pos : Coordinate) (nodeSize : Dimensions)
    (heights : List ℚ) (depth : ℕ) : List HNode → ℕ → Except String (List PlacedNode)
  | [], _ => pure []
  | c :: cs, idx => do
    let childSize ← ensureSome (SizeMap.get? g.sizes c.id) ("Missing size for child " ++ c.id)
    let cx := pos.x - nodeSize.width / 2
    let cy := computeStackY g (pos.y + nodeSize.height / 2 + g.settings.gap.y) idx heights
    let childPlaced ← placeNodes g c (depth + 1)
      ⟨cx + childSize.width / 2 + g.settings.tuning.indent,
       cy + g.settings.tuning.verticalShift⟩
    let rest ← placeChildrenStack g pos nodeSize heights depth cs (idx + 1)
    pure (childPlaced ++ rest)

/-- The `forEach` loop of the horizontal branch of `placeNodes`. -/
def placeChildrenSpread (g : HierarchyGraph) (pos : Coordinate) (nodeSize : Dimensions)
    (widths : List ℚ) (depth : ℕ) : List HNode → ℕ → Except String (List PlacedNode)
  | [], _ => pure []
  | c :: cs, idx => do
    let cx := computeSpreadX g pos.x idx widths
    let cy := pos.y + nodeSize.height / 2 + g.settings.gap.y
    let childSize ← ensureSome (SizeMap.get? g.sizes c.id) ("Missing size for child " ++ c.id)
    let childPlaced ← placeNodes g c (depth + 1) ⟨cx, cy + childSize.height / 2⟩
    let rest ← placeChildrenSpread g pos nodeSize widths depth cs (idx + 1)
    pure (childPlaced ++ rest)

end

/-- Axis-aligned bounding box of a placed node (`getBounds`). -/
structure Bounds where
  left : ℚ
  right : ℚ
  top : ℚ
  bottom : ℚ
  deriving DecidableEq, Repr

/-- `getBounds(pos, size)`. -/
def getBounds (pos : Coordinate) (size : Dimensions) : Bounds :=
  ⟨pos.x - size.width / 2, pos.x + size.width / 2,
   pos.y - size.height / 2, pos.y + size.height / 2⟩

/-- `computeEdgePath` of hierarchy-graph.ts: classifies the connector purely
from the displacement between the two centres; the `_dir` parameter is unused
by the body. -/
def computeEdgePath (srcPos : Coordinate) (srcBounds : Bounds)
    (tgtPos : Coordinate) (tgtBounds : Bounds) (_dir : Direction) : List Coordinate :=
  let dx := tgtPos.x - srcPos.x
  let dy := tgtPos.y - srcPos.y
  if |dy| > |dx| * (1 / 2) ∧ dy > 0 then
    let midY := srcBounds.bottom + (tgtBounds.top - srcBounds.bottom) / 2
    [⟨srcPos.x, srcBounds.bottom⟩, ⟨srcPos.x, midY⟩, ⟨tgtPos.x, midY⟩, ⟨tgtPos.x, tgtBounds.top⟩]
  else if |dy| > |dx| * (1 / 2) ∧ dy < 0 then
    let midY := srcBounds.top + (tgtBounds.bottom - srcBounds.top) / 2
    [⟨srcPos.x, srcBounds.top⟩, ⟨srcPos.x, midY⟩, ⟨tgtPos.x, midY⟩, ⟨tgtPos.x, tgtBounds.bottom⟩]
  else if dx > 0 then
    let midX := srcBounds.right + (tgtBounds.left - srcBounds.right) / 2
    [⟨srcBounds.right, srcPos.y⟩, ⟨midX, srcPos.y⟩, ⟨midX, tgtPos.y⟩, ⟨tgtBounds.left, tgtPos.y⟩]
  else
    let midX := srcBounds.left + (tgtBounds.right - srcBounds.left) / 2
    [⟨srcBounds.left, srcPos.y⟩, ⟨midX, srcPos.y⟩, ⟨midX, tgtPos.y⟩, ⟨tgtBounds.right, tgtPos.y⟩]

/-- Lookup in `new Map(placed.map((p) => [p.data.id, p]))`: a JavaScript Map
built from an entry list keeps, for each key, the LAST entry. -/
def jsMapGet (entries : List (String × PlacedNode)) (k : String) : Option PlacedNode :=
  (entries.reverse.find? (fun e => e.1 = k)).map (fun e => e.2)

/-- The inner `for (const child of p.data.children)` loop of `generateEdges`. -/
def generateEdgesFor (g : HierarchyGraph) (positionMap : List (String × PlacedNode))
    (p : PlacedNode) (bounds : Bounds) (dir : Direction) :
    List HNode → Except String (List Edge)
  | [] => pure []
  | child :: rest => do
    let childPlaced ← ensureSome (jsMapGet positionMap child.id)
      ("Cannot find placed node for " ++ child.id)
    let childSize ← ensureSome (SizeMap.get? g.sizes child.id)
      ("Child size missing for " ++ child.id)
    let childBounds := getBounds childPlaced.position childSize
    let waypoints := computeEdgePath p.position bounds childPlaced.position childBounds dir
    let es ← generateEdgesFor g positionMap p bounds dir rest
    pure (⟨p.data, childPlaced.data, waypoints⟩ :: es)

/-- The outer `for (const p of placed)` loop of `generateEdges`; the
`if (!p.data.children) continue` guard. -/
def generateEdgesAux (g : HierarchyGraph) (positionMap : List (String × PlacedNode)) :
    List PlacedNode → Except String (List Edge)
  | [] => pure []
  | p :: ps =>
    if p.data.children.isEmpty then generateEdgesAux g positionMap ps
    else do
      let parentSize ← ensureSome (SizeMap.get? g.sizes p.data.id)
        ("Parent size missing for " ++ p.data.id)
      let bounds := getBounds p.position parentSize
      let dir := resolveDirection g p.data
      let es ← generateEdgesFor g positionMap p bounds dir p.data.children
      let rest ← generateEdgesAux g positionMap ps
      pure (es ++ rest)

/-- `generateEdges(placed)`. -/
def generateEdges (g : HierarchyGraph) (placed : List PlacedNode) : Except String (List Edge) :=
  generateEdgesAux g (placed.map (fun p => (p.data.id, p))) placed

/-- `compute(root)`: the readiness precondition, then placement, then edge
generation. -/
def compute (g : HierarchyGraph) (root : HNode) : Except String GraphResult := do
  let _ensureOk ← ensure (isReady g root)
    ("Missing sizes for some nodes. Have " ++ toString g.sizes.length ++ " sizes.")
  let placed ← placeNodes g root 0 ⟨0, 0⟩
  let edges ← generateEdges g placed
  pure ⟨placed, edges⟩

/-- Number of reachable nodes with no registered size: the "shortfall count"
the specification says the `compute` precondition error names.  This
definition follows the wording of the spec; the code does not compute it. -/
def missingCount (g : HierarchyGraph) (root : HNode) : ℕ :=
  ((HNode.traverse root).filter (fun n => (SizeMap.get? g.sizes n.id).isNone)).length

/-- The earlier `computeEdgePath` variant of the class (routing purely from
the configured flow direction): vertical gives a 3-waypoint spine-and-branch
path, horizontal a stepped Z. -/
def legacyComputeEdgePath (g : HierarchyGraph) (srcPos : Coordinate) (srcBounds : Bounds)
    (tgtPos : Coordinate) (tgtBounds : Bounds) (dir : Direction) : List Coordinate :=
  match dir with
  | .vertical =>
    let spineX := srcBounds.left - g.settings.edges.vertical.spineOffset
      + g.settings.edges.vertical.spineGap
    [⟨spineX, srcPos.y⟩, ⟨spineX, tgtPos.y⟩, ⟨tgtBounds.left, tgtPos.y⟩]
  | .horizontal =>
    let gp := tgtBounds.top - srcBounds.bottom
    let midY := srcBounds.bottom + gp * (1 / 2)
    [⟨srcPos.x, srcBounds.bottom⟩, ⟨srcPos.x, midY⟩, ⟨tgtPos.x, midY⟩, ⟨tgtPos.x, tgtBounds.top⟩]

/-- SVG draw commands (path-builder.ts `DrawCommand`): `M` moves, `L` draws a
straight line, `Q` draws a quadratic curve with one control point.  The
source field `to` is named `target` here, `to` being reserved in Lean. -/
inductive DrawCommand where
  | M (target : Coordinate)
  | L (target : Coordinate)
  | Q (control : Coordinate) (target : Coordinate)
  deriving DecidableEq, Repr

/-- `moveTo(point)`. -/
def moveTo (point : Coordinate) : DrawCommand := .M point

/-- `lineTo(point)`. -/
def lineTo (point : Coordinate) : DrawCommand := .L point

/-- `curveTo(control, end)`. -/
def curveTo (control : Coordinate) (endPt : Coordinate) : DrawCommand := .Q control endPt

/-- The `c.cmd !== "M"` test of `compilePath`. -/
def DrawCommand.isMove : DrawCommand → Bool
  | .M _ => true
  | _ => false

/-- The per-command rendering of the `.map` inside `compilePath`. -/
def renderCommand : DrawCommand → String
  | .M p => "M " ++ toString p.x ++ " " ++ toString p.y
  | .L p => "L " ++ toString p.x ++ " " ++ toString p.y
  | .Q c p => "Q " ++ toString c.x ++ " " ++ toString c.y
      ++ " " ++ toString p.x ++ " " ++ toString p.y

/-- `compilePath(commands)`: rejects an empty list and a list not starting
with a MoveTo, otherwise renders each command and joins with spaces. -/
def compilePath : List DrawCommand → Except String String
  | [] => Except.error "Cannot compile empty path - at least one command required"
  | c :: cs =>
    if !c.isMove then Except.error "Path must begin with MoveTo (M) command"
    else Except.ok (String.intercalate " " ((c :: cs).map renderCommand))

/-- `BEND_RADIUS` of edge-path.tsx. -/
def BEND_RADIUS : ℚ := 32

/-- `isCorner(a, b, c)`: the incoming segment is purely horizontal and the
outgoing purely vertical, or vice versa. -/
def isCorner (a b c : Coordinate) : Bool :=
  let dx1 := b.x - a.x
  let dy1 := b.y - a.y
  let dx2 := c.x - b.x
  let dy2 := c.y - b.y
  decide ((dx1 ≠ 0 ∧ dy1 = 0 ∧ dx2 = 0 ∧ dy2 ≠ 0) ∨
    (dx1 = 0 ∧ dy1 ≠ 0 ∧ dx2 ≠ 0 ∧ dy2 = 0))

/-- The segment length `Math.sqrt(dx ** 2 + dy ** 2)` of `roundCorner`,
specialised to the axis-aligned segments on which `roundCorner` is invoked:
`buildEdgePath` calls it only on triples satisfying `isCorner`, which forces
one of the two components of each adjacent segment to be zero, and on such
segments the Euclidean norm equals `max |dx| |dy|`. -/
def segLen (dx dy : ℚ) : ℚ := max |dx| |dy|

/-- `roundCorner(prev, corner, next)`: a line to an entry point short of the
corner, then a quadratic curve through the corner to an exit point past it. -/
def roundCorner (prev corner next : Coordinate) : List DrawCommand :=
  let dx1 := corner.x - prev.x
  let dy1 := corner.y - prev.y
  let dx2 := next.x - corner.x
  let dy2 := next.y - corner.y
  let dist1 := segLen dx1 dy1
  let r1 := min BEND_RADIUS (dist1 / 2)
  let t1 := (dist1 - r1) / dist1
  let entry := Coordinate.mk (prev.x + dx1 * t1) (prev.y + dy1 * t1)
  let dist2 := segLen dx2 dy2
  let r2 := min BEND_RADIUS (dist2 / 2)
  let t2 := r2 / dist2
  let exitPt := Coordinate.mk (corner.x + dx2 * t2) (corner.y + dy2 * t2)
  [lineTo entry, curveTo corner exitPt]

/-- The command-building loop of `buildEdgePath`: at index `i` the points
`curr = points[i]`, `next = points[i+1]` and the lookahead
`after = points[i+2]` (absent on the last step). -/
def walkPoints : Coordinate → Coordinate → List Coordinate → List DrawCommand
  | _, next, [] => [lineTo next]
  | curr, next, after :: rest =>
    (if isCorner curr next after then roundCorner curr next after else [lineTo next])
      ++ walkPoints next after rest

/-- `buildEdgePath(points)`: empty string below 2 points, a single straight
segment for exactly 2, otherwise the corner-rounding walk; the result of
`compilePath` (which can throw) is propagated. -/
def buildEdgePath (points : List Coordinate) : Except String String :=
  match points with
  | [] => Except.ok ""
  | [_] => Except.ok ""
  | [p, q] => compilePath [moveTo p, lineTo q]
  | p :: q :: r :: rest => compilePath (moveTo p :: walkPoints p q (r :: rest))

/-! Concrete fixtures used by witnesses and counterexamples. -/

/-- Default-resolved settings with `gap = {x: 20, y: 40}`. -/
def demoSettings : Settings :=
  ⟨⟨20, 40⟩, .horizontal, ⟨60, -25, 2 / 5, 833 / 1000⟩, ⟨⟨0, 20⟩⟩⟩

def demoSizes : SizeMap := [("r", ⟨100, 40⟩), ("a", ⟨100, 50⟩), ("b", ⟨100, 50⟩)]

def demoGraph : HierarchyGraph := ⟨demoSettings, demoSizes⟩

/-- A root with two children. -/
def demoTree : HNode := .node "r" none [.node "a" none [], .node "b" none []]

/-! Claim theorems for the path compiler and edge router. -/

/-- Claim C8: `compilePath(commands)` throws an error if and only if the
command list is empty or its first command is not a MoveTo; for every other
command list it returns the joined SVG path string, with no internal
recovery. -/
theorem C8_compilePath_spec (cmds : List DrawCommand) :
    ((∃ e, compilePath cmds = Except.error e) ↔
      cmds = [] ∨ ∃ c cs, cmds = c :: cs ∧ c.isMove = false)
    ∧ (∀ c cs, cmds = c :: cs → c.isMove = true →
        compilePath cmds = Except.ok (String.intercalate " " (cmds.map renderCommand))) := by
  constructor
  · cases cmds with
    | nil =>
      simp [compilePath]
    | cons c cs =>
      by_cases h : c.isMove = true
      · simp [compilePath, h]
      · simp only [Bool.not_eq_true] at h
        simp [compilePath, h]
  · intro c cs hc hm
    subst hc
    simp [compilePath, hm]

/-- Witness for C8 at a concrete command list. -/
theorem C8_witness :
    compilePath [moveTo ⟨0, 0⟩, lineTo ⟨3, 4⟩] = Except.ok "M 0 0 L 3 4" := by
  have h := (C8_compilePath_spec [moveTo ⟨0, 0⟩, lineTo ⟨3, 4⟩]).2
    (moveTo ⟨0, 0⟩) [lineTo ⟨3, 4⟩] rfl (by decide)
  simpa using h

/-- Claim C10: `buildEdgePath` never throws: for lists of at least 2
waypoints the built command list begins with a MoveTo so both error branches
of `compilePath` are unreachable, and for fewer than 2 points it returns the
empty string rather than an error. -/
theorem C10_buildEdgePath_safe (points : List Coordinate) :
    (∃ s, buildEdgePath points = Except.ok s)
    ∧ (points.length < 2 → buildEdgePath points = Except.ok "") := by
  constructor
  · match points with
    | [] => exact ⟨"", rfl⟩
    | [p] => exact ⟨"", rfl⟩
    | [p, q] =>
      exact ⟨String.intercalate " " ([moveTo p, lineTo q].map renderCommand),
        by simp [buildEdgePath, compilePath, moveTo, DrawCommand.isMove]⟩
    | p :: q :: r :: rest =>
      exact ⟨String.intercalate " "
          ((moveTo p :: walkPoints p q (r :: rest)).map renderCommand),
        by simp [buildEdgePath, compilePath, moveTo, DrawCommand.isMove]⟩
  · intro h
    match points, h with
    | [], _ => rfl
    | [p], _ => rfl
    | p :: q :: rest, h =>
      rw [List.length_cons, List.length_cons] at h
      exact absurd h (by omega)

/-- Witness for C10 at the empty waypoint list. -/
theorem C10_witness :
    ([] : List Coordinate).length < 2 ∧ buildEdgePath [] = Except.ok "" :=
  ⟨by decide, (C10_buildEdgePath_safe []).2 (by decide)⟩

/-- Halfway point rewriting used to match the "midpoint" phrasing of the claim. -/
theorem halfway_eq (a b : ℚ) : a + (b - a) / 2 = (a + b) / 2 := by ring

/-- Claim C6: the edge waypoints depend only on the two centre positions and
bounding boxes (identical for every flow-direction setting), and follow the
four-way midpoint routing: primarily-vertical below, primarily-vertical
above, horizontal rightward, horizontal leftward. -/
theorem C6_router_pure_geometry (srcPos tgtPos : Coordinate) (srcB tgtB : Bounds)
    (d d' : Direction) :
    computeEdgePath srcPos srcB tgtPos tgtB d = computeEdgePath srcPos srcB tgtPos tgtB d'
    ∧ (|tgtPos.y - srcPos.y| > |tgtPos.x - srcPos.x| * (1 / 2) → tgtPos.y - srcPos.y > 0 →
        computeEdgePath srcPos srcB tgtPos tgtB d =
          [⟨srcPos.x, srcB.bottom⟩, ⟨srcPos.x, (srcB.bottom + tgtB.top) / 2⟩,
           ⟨tgtPos.x, (srcB.bottom + tgtB.top) / 2⟩, ⟨tgtPos.x, tgtB.top⟩])
    ∧ (|tgtPos.y - srcPos.y| > |tgtPos.x - srcPos.x| * (1 / 2) → tgtPos.y - srcPos.y < 0 →
        computeEdgePath srcPos srcB tgtPos tgtB d =
          [⟨srcPos.x, srcB.top⟩, ⟨srcPos.x, (srcB.top + tgtB.bottom) / 2⟩,
           ⟨tgtPos.x, (srcB.top + tgtB.bottom) / 2⟩, ⟨tgtPos.x, tgtB.bottom⟩])
    ∧ (¬ |tgtPos.y - srcPos.y| > |tgtPos.x - srcPos.x| * (1 / 2) → tgtPos.x - srcPos.x > 0 →
        computeEdgePath srcPos srcB tgtPos tgtB d =
          [⟨srcB.right, srcPos.y⟩, ⟨(srcB.right + tgtB.left) / 2, srcPos.y⟩,
           ⟨(srcB.right + tgtB.left) / 2, tgtPos.y⟩, ⟨tgtB.left, tgtPos.y⟩])
    ∧ (¬ |tgtPos.y - srcPos.y| > |tgtPos.x - srcPos.x| * (1 / 2) → ¬ tgtPos.x - srcPos.x > 0 →
        computeEdgePath srcPos srcB tgtPos tgtB d =
          [⟨srcB.left, srcPos.y⟩, ⟨(srcB.left + tgtB.right) / 2, srcPos.y⟩,
           ⟨(srcB.left + tgtB.right) / 2, tgtPos.y⟩, ⟨tgtB.right, tgtPos.y⟩]) := by
  refine ⟨rfl, ?_, ?_, ?_, ?_⟩
  · intro h1 h2
    simp only [computeEdgePath]
    rw [if_pos ⟨h1, h2⟩, halfway_eq]
  · intro h1 h2
    simp only [computeEdgePath]
    rw [if_neg (fun hc => absurd hc.2 (by linarith)), if_pos ⟨h1, h2⟩, halfway_eq]
  · intro h1 h2
    simp only [computeEdgePath]
    rw [if_neg (fun hc => h1 hc.1), if_neg (fun hc => h1 hc.1), if_pos h2, halfway_eq]
  · intro h1 h2
    simp only [computeEdgePath]
    rw [if_neg (fun hc => h1 hc.1), if_neg (fun hc => h1 hc.1), if_neg h2, halfway_eq]

/-- Witness for C6: a child displaced mostly downward. -/
theorem C6_witness :
    computeEdgePath ⟨0, 0⟩ ⟨-5, 5, -2, 2⟩ ⟨10, 100⟩ ⟨5, 15, 90, 110⟩ .vertical =
      [⟨0, 2⟩, ⟨0, 46⟩, ⟨10, 46⟩, ⟨10, 90⟩] := by
  have h := (C6_router_pure_geometry ⟨0, 0⟩ ⟨10, 100⟩ ⟨-5, 5, -2, 2⟩ ⟨5, 15, 90, 110⟩
    .vertical .horizontal).2.1 (by norm_num) (by norm_num)
  norm_num at h
  exact h

/-- Claim C9: the two Edge Router variants present in the source are not
extensionally equal: for this placed parent/child pair under the vertical
direction setting, the legacy (direction-driven) router yields a 3-waypoint
spine-and-branch path while the geometric router yields 4 waypoints, and the
two waypoint lists differ. -/
theorem C9_router_variants_differ :
    (legacyComputeEdgePath demoGraph ⟨0, 0⟩ ⟨-50, 50, -20, 20⟩ ⟨50, 100⟩
        ⟨10, 90, 80, 120⟩ .vertical).length = 3
    ∧ (computeEdgePath ⟨0, 0⟩ ⟨-50, 50, -20, 20⟩ ⟨50, 100⟩
        ⟨10, 90, 80, 120⟩ .vertical).length = 4
    ∧ legacyComputeEdgePath demoGraph ⟨0, 0⟩ ⟨-50, 50, -20, 20⟩ ⟨50, 100⟩
        ⟨10, 90, 80, 120⟩ .vertical
      ≠ computeEdgePath ⟨0, 0⟩ ⟨-50, 50, -20, 20⟩ ⟨50, 100⟩
        ⟨10, 90, 80, 120⟩ .vertical := by
  have hleg : legacyComputeEdgePath demoGraph ⟨0, 0⟩ ⟨-50, 50, -20, 20⟩ ⟨50, 100⟩
      ⟨10, 90, 80, 120⟩ .vertical = [⟨-30, 0⟩, ⟨-30, 100⟩, ⟨10, 100⟩] := by
    simp [legacyComputeEdgePath, demoGraph, demoSettings]
    norm_num
  have hnew : computeEdgePath ⟨0, 0⟩ ⟨-50, 50, -20, 20⟩ ⟨50, 100⟩
      ⟨10, 90, 80, 120⟩ .vertical = [⟨0, 20⟩, ⟨0, 50⟩, ⟨50, 50⟩, ⟨50, 80⟩] := by
    simp only [computeEdgePath]
    rw [if_pos (by norm_num)]
    norm_num
  refine ⟨by rw [hleg]; rfl, by rw [hnew]; rfl, fun heq => ?_⟩
  rw [hleg, hnew] at heq
  exact absurd (congrArg List.length heq) (by simp)

/-! Infrastructure lemmas about traversal, readiness and the measurers. -/

/-- Induction over the tree: to prove a property of every node it suffices to
prove it for a node assuming it for all of its children. -/
theorem HNode.myInd (P : HNode → Prop)
    (h : ∀ i d cs, (∀ c ∈ cs, P c) → P (.node i d cs)) : ∀ n, P n
  | .node i d cs => h i d cs (fun c hc => HNode.myInd P h c)
termination_by n => sizeOf n
decreasing_by
  have := List.sizeOf_lt_of_mem hc
  simp only [HNode.node.sizeOf_spec]
  omega

theorem mem_traverseList {m : HNode} {cs : List HNode} :
    m ∈ HNode.traverseList cs ↔ ∃ c ∈ cs, m ∈ HNode.traverse c := by
  induction cs with
  | nil => simp [HNode.traverseList]
  | cons c cs ih => simp [HNode.traverseList, ih]

theorem self_mem_traverse (n : HNode) : n ∈ HNode.traverse n := by
  cases n
  rw [HNode.traverse]
  exact List.mem_cons_self _ _

/-- Every reachable node of the subtree has a registered size; the property
`isReady` decides. -/
def allSized (g : HierarchyGraph) (n : HNode) : Prop :=
  ∀ m ∈ HNode.traverse n, (SizeMap.get? g.sizes m.id).isSome = true

theorem isReady_iff {g : HierarchyGraph} {root : HNode} :
    isReady g root = true ↔ allSized g root := by
  simp [isReady, allSized, List.all_eq_true]

theorem allSized_node {g : HierarchyGraph} {i : String} {d : Option Direction}
    {cs : List HNode} :
    allSized g (.node i d cs) ↔
      (SizeMap.get? g.sizes i).isSome = true ∧ ∀ c ∈ cs, allSized g c := by
  constructor
  · intro h
    refine ⟨?_, fun c hc m hm => ?_⟩
    · have := h (.node i d cs) (self_mem_traverse _)
      simpa [HNode.id] using this
    · refine h m ?_
      rw [HNode.traverse]
      exact List.mem_cons_of_mem _ (mem_traverseList.2 ⟨c, hc, hm⟩)
  · rintro ⟨h1, h2⟩ m hm
    rw [HNode.traverse] at hm
    rcases List.mem_cons.1 hm with rfl | hm
    · simpa [HNode.id] using h1
    · rcases mem_traverseList.1 hm with ⟨c, hc, hm⟩
      exact h2 c hc m hm

/-- The traversal is closed under taking children. -/
theorem mem_children_traverse :
    ∀ n, ∀ m ∈ HNode.traverse n, ∀ c ∈ m.children, c ∈ HNode.traverse n := by
  intro n
  induction n using HNode.myInd with
  | h i d cs ih =>
    intro m hm c hc
    rw [HNode.traverse] at hm ⊢
    rcases List.mem_cons.1 hm with rfl | hm
    · simp only [HNode.children] at hc
      exact List.mem_cons_of_mem _ (mem_traverseList.2 ⟨c, hc, self_mem_traverse c⟩)
    · rcases mem_traverseList.1 hm with ⟨c', hc', hm'⟩
      exact List.mem_cons_of_mem _
        (mem_traverseList.2 ⟨c', hc', ih c' hc' m hm' c hc⟩)

theorem measureWidthList_ok {g : HierarchyGraph} {cs : List HNode}
    (h : ∀ c ∈ cs, ∃ w, measureWidth g c = Except.ok w) :
    ∃ ws, measureWidthList g cs = Except.ok ws ∧ ws.length = cs.length := by
  induction cs with
  | nil => exact ⟨[], rfl, rfl⟩
  | cons c cs ih =>
    obtain ⟨w, hw⟩ := h c (List.mem_cons_self c cs)
    obtain ⟨ws, hws, hlen⟩ := ih (fun c hc => h c (List.mem_cons_of_mem _ hc))
    refine ⟨w :: ws, ?_, by simp [hlen]⟩
    rw [measureWidthList, hw, bindE_ok, hws, bindE_ok, pureE]

theorem measureHeightList_ok {g : HierarchyGraph} {cs : List HNode}
    (h : ∀ c ∈ cs, ∃ w, measureHeight g c = Except.ok w) :
    ∃ hs, measureHeightList g cs = Except.ok hs ∧ hs.length = cs.length := by
  induction cs with
  | nil => exact ⟨[], rfl, rfl⟩
  | cons c cs ih =>
    obtain ⟨w, hw⟩ := h c (List.mem_cons_self c cs)
    obtain ⟨hs, hhs, hlen⟩ := ih (fun c hc => h c (List.mem_cons_of_mem _ hc))
    refine ⟨w :: hs, ?_, by simp [hlen]⟩
    rw [measureHeightList, hw, bindE_ok, hhs, bindE_ok, pureE]

theorem measureWidth_ok {g : HierarchyGraph} :
    ∀ n, allSized g n → ∃ w, measureWidth g n = Except.ok w := by
  intro n
  induction n using HNode.myInd with
  | h i d cs ih =>
    intro hall
    obtain ⟨hsz, hch⟩ := allSized_node.1 hall
    obtain ⟨s, hs⟩ := Option.isSome_iff_exists.mp hsz
    obtain ⟨ws, hws, _⟩ := measureWidthList_ok (fun c hc => ih c hc (hch c hc))
    cases hcs : cs.isEmpty with
    | true =>
      refine ⟨s.width, ?_⟩
      rw [measureWidth, hs]
      simp [ensureSome, hcs]
    | false =>
      cases hdir : resolveDirection g (HNode.node i d cs) with
      | horizontal =>
        refine ⟨max s.width (ws.sum + ((cs.length : ℚ) - 1) * g.settings.gap.x), ?_⟩
        rw [measureWidth, hs]
        simp [ensureSome, hcs, hdir, hws, bindE_ok, pureE]
      | vertical =>
        refine ⟨s.width + g.settings.gap.x + listMax ws * g.settings.tuning.compression, ?_⟩
        rw [measureWidth, hs]
        simp [ensureSome, hcs, hdir, hws, bindE_ok, pureE]

theorem measureHeight_ok {g : HierarchyGraph} :
    ∀ n, allSized g n → ∃ w, measureHeight g n = Except.ok w := by
  intro n
  induction n using HNode.myInd with
  | h i d cs ih =>
    intro hall
    obtain ⟨hsz, hch⟩ := allSized_node.1 hall
    obtain ⟨s, hs⟩ := Option.isSome_iff_exists.mp hsz
    obtain ⟨hsL, hhs, _⟩ := measureHeightList_ok (fun c hc => ih c hc (hch c hc))
    cases hcs : cs.isEmpty with
    | true =>
      refine ⟨s.height, ?_⟩
      rw [measureHeight, hs]
      simp [ensureSome, hcs]
    | false =>
      cases hdir : resolveDirection g (HNode.node i d cs) with
      | vertical =>
        refine ⟨max s.height (hsL.sum + ((cs.length : ℚ) - 1) * g.settings.gap.y), ?_⟩
        rw [measureHeight, hs]
        simp [ensureSome, hcs, hdir, hhs, bindE_ok, pureE]
      | horizontal =>
        refine ⟨s.height + g.settings.gap.y + listMax hsL, ?_⟩
        rw [measureHeight, hs]
        simp [ensureSome, hcs, hdir, hhs, bindE_ok, pureE]

/-- The first element of a successful `placeNodes` call is the node itself,
placed at the origin when it is the root (depth 0) and at its anchor
otherwise. -/
theorem placeNodes_head {g : HierarchyGraph} {n : HNode} {depth : ℕ} {anchor : Coordinate}
    {l : List PlacedNode} (h : placeNodes g n depth anchor = Except.ok l) :
    l.head? = some ⟨n, if depth = 0 then ⟨0, 0⟩ else anchor, depth⟩ := by
  cases n with
  | node i d cs =>
    rw [placeNodes] at h
    simp only [bindE_eq_ok, ensureSome_eq_ok] at h
    obtain ⟨nodeSize, hsz, h⟩ := h
    cases hcs : cs.isEmpty with
    | true =>
      simp only [hcs, if_true, pureE, Except.ok.injEq] at h
      rw [← h]
      rfl
    | false =>
      simp only [hcs, Bool.false_eq_true, if_false] at h
      cases hdir : resolveDirection g (HNode.node i d cs) <;>
        simp only [hdir] at h <;>
        · obtain ⟨vals, hvals, h⟩ := bindE_eq_ok.1 h
          obtain ⟨rest, hrest, h⟩ := bindE_eq_ok.1 h
          rw [pureE, Except.ok.injEq] at h
          rw [← h]
          rfl

theorem placeChildrenStack_ok (g : HierarchyGraph) (pos : Coordinate) (nodeSize : Dimensions)
    (heights : List ℚ) (depth : ℕ) (cs : List HNode)
    (hsz : ∀ c ∈ cs, (SizeMap.get? g.sizes c.id).isSome = true)
    (hok : ∀ c ∈ cs, ∀ anchor2, ∃ l, placeNodes g c (depth + 1) anchor2 = Except.ok l ∧
      l.map PlacedNode.data = HNode.traverse c) :
    ∀ idx, ∃ L, placeChildrenStack g pos nodeSize heights depth cs idx = Except.ok L ∧
      L.map PlacedNode.data = HNode.traverseList cs := by
  induction cs with
  | nil => intro idx; exact ⟨[], rfl, rfl⟩
  | cons c cs ih =>
    intro idx
    obtain ⟨cSize, hcSize⟩ := Option.isSome_iff_exists.mp (hsz c (List.mem_cons_self _ _))
    obtain ⟨sub, hsub, hsubmap⟩ := hok c (List.mem_cons_self _ _)
      ⟨pos.x - nodeSize.width / 2 + cSize.width / 2 + g.settings.tuning.indent,
       computeStackY g (pos.y + nodeSize.height / 2 + g.settings.gap.y) idx heights
         + g.settings.tuning.verticalShift⟩
    obtain ⟨L, hL, hLmap⟩ := ih (fun c hc => hsz c (List.mem_cons_of_mem _ hc))
      (fun c hc => hok c (List.mem_cons_of_mem _ hc)) (idx + 1)
    refine ⟨sub ++ L, ?_, by simp [hsubmap, hLmap, HNode.traverseList]⟩
    rw [placeChildrenStack]
    simp only [hcSize, ensureSome, bindE_ok]
    rw [hsub, bindE_ok, hL, bindE_ok, pureE]

theorem placeChildrenSpread_ok (g : HierarchyGraph) (pos : Coordinate) (nodeSize : Dimensions)
    (widths : List ℚ) (depth : ℕ) (cs : List HNode)
    (hsz : ∀ c ∈ cs, (SizeMap.get? g.sizes c.id).isSome = true)
    (hok : ∀ c ∈ cs, ∀ anchor2, ∃ l, placeNodes g c (depth + 1) anchor2 = Except.ok l ∧
      l.map PlacedNode.data = HNode.traverse c) :
    ∀ idx, ∃ L, placeChildrenSpread g pos nodeSize widths depth cs idx = Except.ok L ∧
      L.map PlacedNode.data = HNode.traverseList cs := by
  induction cs with
  | nil => intro idx; exact ⟨[], rfl, rfl⟩
  | cons c cs ih =>
    intro idx
    obtain ⟨cSize, hcSize⟩ := Option.isSome_iff_exists.mp (hsz c (List.mem_cons_self _ _))
    obtain ⟨sub, hsub, hsubmap⟩ := hok c (List.mem_cons_self _ _)
      ⟨computeSpreadX g pos.x idx widths,
       pos.y + nodeSize.height / 2 + g.settings.gap.y + cSize.height / 2⟩
    obtain ⟨L, hL, hLmap⟩ := ih (fun c hc => hsz c (List.mem_cons_of_mem _ hc))
      (fun c hc => hok c (List.mem_cons_of_mem _ hc)) (idx + 1)
    refine ⟨sub ++ L, ?_, by simp [hsubmap, hLmap, HNode.traverseList]⟩
    rw [placeChildrenSpread]
    simp only [hcSize, ensureSome, bindE_ok]
    rw [hsub, bindE_ok, hL, bindE_ok, pureE]

/-- On a fully sized subtree `placeNodes` succeeds and returns exactly one
placed node per tree node, in depth-first preorder. -/
theorem placeNodes_ok {g : HierarchyGraph} :
    ∀ n, allSized g n → ∀ (depth : ℕ) (anchor : Coordinate),
      ∃ l, placeNodes g n depth anchor = Except.ok l ∧
        l.map PlacedNode.data = HNode.traverse n := by
  intro n
  induction n using HNode.myInd with
  | h i d cs ih =>
    intro hall depth anchor
    obtain ⟨hsz, hch⟩ := allSized_node.1 hall
    obtain ⟨s, hs⟩ := Option.isSome_iff_exists.mp hsz
    have hchsz : ∀ c ∈ cs, (SizeMap.get? g.sizes c.id).isSome = true :=
      fun c hc => hch c hc c (self_mem_traverse c)
    have hok : ∀ c ∈ cs, ∀ anchor2, ∃ l,
        placeNodes g c (depth + 1) anchor2 = Except.ok l ∧
        l.map PlacedNode.data = HNode.traverse c :=
      fun c hc anchor2 => ih c hc (hch c hc) (depth + 1) anchor2
    cases hcs : cs.isEmpty with
    | true =>
      have hnil : cs = [] := by
        cases cs with
        | nil => rfl
        | cons c cs => simp [List.isEmpty] at hcs
      subst hnil
      refine ⟨[⟨.node i d [], if depth = 0 then ⟨0, 0⟩ else anchor, depth⟩], ?_, ?_⟩
      · rw [placeNodes]
        simp [hs, ensureSome, bindE_ok]
      · simp [HNode.traverse, HNode.traverseList]
    | false =>
      cases hdir : resolveDirection g (.node i d cs) with
      | vertical =>
        obtain ⟨hsL, hhs, hlen⟩ :=
          measureHeightList_ok (fun c hc => measureHeight_ok c (hch c hc))
        obtain ⟨L, hL, hLmap⟩ := placeChildrenStack_ok g
          (if depth = 0 then ⟨0, 0⟩ else anchor) s hsL depth cs hchsz hok 0
        refine ⟨⟨.node i d cs, if depth = 0 then ⟨0, 0⟩ else anchor, depth⟩ :: L, ?_, ?_⟩
        · rw [placeNodes]
          simp only [hs, ensureSome, bindE_ok, hcs, Bool.false_eq_true, if_false, hdir]
          rw [hhs, bindE_ok, hL, bindE_ok, pureE]
        · simp [HNode.traverse, hLmap]
      | horizontal =>
        obtain ⟨ws, hws, hwlen⟩ :=
          measureWidthList_ok (fun c hc => measureWidth_ok c (hch c hc))
        obtain ⟨L, hL, hLmap⟩ := placeChildrenSpread_ok g
          (if depth = 0 then ⟨0, 0⟩ else anchor) s ws depth cs hchsz hok 0
        refine ⟨⟨.node i d cs, if depth = 0 then ⟨0, 0⟩ else anchor, depth⟩ :: L, ?_, ?_⟩
        · rw [placeNodes]
          simp only [hs, ensureSome, bindE_ok, hcs, Bool.false_eq_true, if_false, hdir]
          rw [hws, bindE_ok, hL, bindE_ok, pureE]
        · simp [HNode.traverse, hLmap]

/-- At depth 0 the supplied anchor is irrelevant: the root is pinned to the
origin before any further computation uses the position. -/
theorem placeNodes_depth0_anchor (g : HierarchyGraph) (n : HNode) (a a' : Coordinate) :
    placeNodes g n 0 a = placeNodes g n 0 a' := by
  cases n
  rw [placeNodes, placeNodes]
  simp

theorem jsMapGet_isSome {entries : List (String × PlacedNode)} {k : String}
    (h : ∃ e ∈ entries, e.1 = k) : (jsMapGet entries k).isSome = true := by
  rcases h with ⟨e, he, hk⟩
  rw [jsMapGet]
  rcases hfind : entries.reverse.find? (fun e => e.1 = k) with _ | e'
  · rw [List.find?_eq_none] at hfind
    have := hfind e (List.mem_reverse.2 he)
    simp [hk] at this
  · rw [hfind]
    rfl

theorem generateEdgesFor_ok (g : HierarchyGraph) (positionMap : List (String × PlacedNode))
    (p : PlacedNode) (bounds : Bounds) (dir : Direction) :
    ∀ children : List HNode,
      (∀ c ∈ children, (jsMapGet positionMap c.id).isSome = true ∧
        (SizeMap.get? g.sizes c.id).isSome = true) →
      ∃ es, generateEdgesFor g positionMap p bounds dir children = Except.ok es := by
  intro children
  induction children with
  | nil => intro _; exact ⟨[], rfl⟩
  | cons c cs ih =>
    intro h
    obtain ⟨h1, h2⟩ := h c (List.mem_cons_self _ _)
    obtain ⟨cp, hcp⟩ := Option.isSome_iff_exists.mp h1
    obtain ⟨csz, hcsz⟩ := Option.isSome_iff_exists.mp h2
    obtain ⟨es, hes⟩ := ih (fun c hc => h c (List.mem_cons_of_mem _ hc))
    refine ⟨⟨p.data, cp.data,
      computeEdgePath p.position bounds cp.position (getBounds cp.position csz) dir⟩ :: es, ?_⟩
    rw [generateEdgesFor]
    simp only [hcp, hcsz, ensureSome, bindE_ok]
    rw [hes, bindE_ok, pureE]

theorem generateEdgesAux_ok (g : HierarchyGraph) (positionMap : List (String × PlacedNode)) :
    ∀ ps : List PlacedNode,
      (∀ p ∈ ps, (SizeMap.get? g.sizes p.data.id).isSome = true ∧
        ∀ c ∈ p.data.children, (jsMapGet positionMap c.id).isSome = true ∧
          (SizeMap.get? g.sizes c.id).isSome = true) →
      ∃ es, generateEdgesAux g positionMap ps = Except.ok es := by
  intro ps
  induction ps with
  | nil => intro _; exact ⟨[], rfl⟩
  | cons p ps ih =>
    intro h
    obtain ⟨hp, hpc⟩ := h p (List.mem_cons_self _ _)
    obtain ⟨rest, hrest⟩ := ih (fun q hq => h q (List.mem_cons_of_mem _ hq))
    cases hempty : p.data.children.isEmpty with
    | true =>
      refine ⟨rest, ?_⟩
      rw [generateEdgesAux, if_pos hempty]
      exact hrest
    | false =>
      obtain ⟨ps2, hps2⟩ := Option.isSome_iff_exists.mp hp
      obtain ⟨es, hes⟩ := generateEdgesFor_ok g positionMap p
        (getBounds p.position ps2) (resolveDirection g p.data) p.data.children hpc
      refine ⟨es ++ rest, ?_⟩
      rw [generateEdgesAux, if_neg (by simp [hempty])]
      simp only [hps2, ensureSome, bindE_ok]
      rw [hes, bindE_ok, hrest, bindE_ok, pureE]

/-- On a fully sized tree, edge generation from a complete placement always
succeeds. -/
theorem generateEdges_ok (g : HierarchyGraph) (root : HNode) (placed : List PlacedNode)
    (hall : allSized g root) (hdat : placed.map PlacedNode.data = HNode.traverse root) :
    ∃ es, generateEdges g placed = Except.ok es := by
  apply generateEdgesAux_ok
  intro p hp
  have hpd : p.data ∈ HNode.traverse root := by
    rw [← hdat]
    exact List.mem_map_of_mem _ hp
  refine ⟨hall _ hpd, fun c hc => ?_⟩
  have hcmem : c ∈ HNode.traverse root := mem_children_traverse root p.data hpd c hc
  constructor
  · have hcmem' := hcmem
    rw [← hdat] at hcmem'
    obtain ⟨q, hq, hqc⟩ := List.mem_map.1 hcmem'
    exact jsMapGet_isSome ⟨(q.data.id, q), List.mem_map_of_mem _ hq, by rw [hqc]⟩
  · exact hall c hcmem

/-- On a ready tree `compute` succeeds, with nodes the preorder placement. -/
theorem compute_ok_of_ready {g : HierarchyGraph} {root : HNode}
    (h : isReady g root = true) :
    ∃ nodes edges, compute g root = Except.ok ⟨nodes, edges⟩ ∧
      placeNodes g root 0 ⟨0, 0⟩ = Except.ok nodes ∧
      nodes.map PlacedNode.data = HNode.traverse root := by
  have hall := isReady_iff.1 h
  obtain ⟨nodes, hn, hmap⟩ := placeNodes_ok root hall 0 ⟨0, 0⟩
  obtain ⟨es, hes⟩ := generateEdges_ok g root nodes hall hmap
  refine ⟨nodes, es, ?_, hn, hmap⟩
  simp only [compute, ensure, h, if_true, bindE_ok]
  rw [hn, bindE_ok, hes, bindE_ok, pureE]

/-- Claim C1: on a tree in which every reachable node has a registered size,
`compute` returns exactly one PlacedNode per tree node, in depth-first
preorder (ids in bijective correspondence with the nodes of the tree), and the
root PlacedNode has position (0, 0) and depth 0 regardless of the anchor
supplied to placement. -/
theorem C1_compute_places_every_node_once (g : HierarchyGraph) (root : HNode)
    (h : isReady g root = true) :
    ∃ r, compute g root = Except.ok r ∧
      r.nodes.map PlacedNode.data = HNode.traverse root ∧
      r.nodes.head? = some ⟨root, ⟨0, 0⟩, 0⟩ ∧
      ∀ anchor, placeNodes g root 0 anchor = Except.ok r.nodes := by
  obtain ⟨nodes, es, hc, hn, hmap⟩ := compute_ok_of_ready h
  refine ⟨⟨nodes, es⟩, hc, hmap, ?_, ?_⟩
  · have hh := placeNodes_head hn
    simpa using hh
  · intro anchor
    rw [placeNodes_depth0_anchor g root anchor ⟨0, 0⟩]
    exact hn

/-- Witness for C1 on a concrete two-child tree. -/
theorem C1_witness :
    isReady demoGraph demoTree = true ∧
    ∃ r, compute demoGraph demoTree = Except.ok r ∧
      r.nodes.map PlacedNode.data = HNode.traverse demoTree ∧
      r.nodes.head? = some ⟨demoTree, ⟨0, 0⟩, 0⟩ ∧
      ∀ anchor, placeNodes demoGraph demoTree 0 anchor = Except.ok r.nodes := by
  have hr : isReady demoGraph demoTree = true := by
    simp +decide [isReady, demoGraph, demoTree, demoSizes, HNode.traverse,
      HNode.traverseList, SizeMap.get?, HNode.id]
  exact ⟨hr, C1_compute_places_every_node_once demoGraph demoTree hr⟩

/-- Claim C2 (amended): `compute(root)` fails with a precondition error if
and only if some node reachable from root lacks a registered size — all or
nothing, no partial result and no internal retry — and the error message
reports the number of REGISTERED sizes (`Have N sizes.`), not the shortfall
count the spec describes. -/
theorem C2_compute_error_iff (g : HierarchyGraph) (root : HNode) :
    (isReady g root = false →
      compute g root = Except.error
        ("Missing sizes for some nodes. Have " ++ toString g.sizes.length ++ " sizes."))
    ∧ (isReady g root = true → ∃ r, compute g root = Except.ok r)
    ∧ ((∃ e, compute g root = Except.error e) ↔
        ¬ ∀ m ∈ HNode.traverse root, (SizeMap.get? g.sizes m.id).isSome = true) := by
  have herr : isReady g root = false →
      compute g root = Except.error
        ("Missing sizes for some nodes. Have " ++ toString g.sizes.length ++ " sizes.") := by
    intro h
    simp [compute, ensure, h, bindE_error]
  have hok : isReady g root = true → ∃ r, compute g root = Except.ok r := by
    intro h
    obtain ⟨n, e, hc, _, _⟩ := compute_ok_of_ready h
    exact ⟨⟨n, e⟩, hc⟩
  refine ⟨herr, hok, ?_, ?_⟩
  · rintro ⟨e, he⟩ hallP
    have hisr : isReady g root = true := isReady_iff.2 hallP
    obtain ⟨r, hr⟩ := hok hisr
    rw [hr] at he
    exact absurd he (by simp)
  · intro hnot
    have hisr : isReady g root = false := by
      cases hh : isReady g root with
      | false => rfl
      | true => exact absurd (isReady_iff.1 hh) hnot
    exact ⟨_, herr hisr⟩

/-- Witness for C2 on concrete ready and unready inputs. -/
theorem C2_witness :
    isReady demoGraph demoTree = true ∧
    (∃ r, compute demoGraph demoTree = Except.ok r) := by
  have hr : isReady demoGraph demoTree = true := by
    simp +decide [isReady, demoGraph, demoTree, demoSizes, HNode.traverse,
      HNode.traverseList, SizeMap.get?, HNode.id]
  exact ⟨hr, (C2_compute_error_iff demoGraph demoTree).2.1 hr⟩

/-- A registry holding only the size of the root, so two of the three reachable
nodes lack sizes. -/
def missingGraph : HierarchyGraph := ⟨demoSettings, [("r", ⟨10, 10⟩)]⟩

/-- Counterexample to C2 as stated: with 3 reachable nodes and 1 registered
size, the shortfall count is 2, but the raised error message is
"Missing sizes for some nodes. Have 1 sizes." — it reports the registered
count and contains no digit of the shortfall count 2. -/
theorem C2_counterexample :
    compute missingGraph demoTree =
      Except.error "Missing sizes for some nodes. Have 1 sizes."
    ∧ missingCount missingGraph demoTree = 2
    ∧ toString (2 : ℕ) = "2"
    ∧ ('2' ∈ "Missing sizes for some nodes. Have 1 sizes.".toList → False)
    ∧ '1' ∈ "Missing sizes for some nodes. Have 1 sizes.".toList := by
  have hf : isReady missingGraph demoTree = false := by
    simp +decide [isReady, missingGraph, demoTree, HNode.traverse, HNode.traverseList,
      SizeMap.get?, HNode.id]
  refine ⟨?_, ?_, by decide, by decide, by decide⟩
  · simp only [compute, ensure, hf, Bool.false_eq_true, if_false, bindE_error]
    rfl
  · simp +decide [missingCount, demoTree, missingGraph, HNode.traverse,
      HNode.traverseList, SizeMap.get?, HNode.id, List.filter]

/-- Claim C3: the recursive measurement formulas.  A leaf measures its own
registered size; a horizontal non-leaf has width
`max(own, sum children + (count−1)·gap.x)` and height
`own + gap.y + max children`; a vertical non-leaf has height
`max(own, sum children + (count−1)·gap.y)` and width
`own + gap.x + compression · max children`. -/
theorem C3_measure_recursive_formulas (g : HierarchyGraph) (i : String)
    (d : Option Direction) (cs : List HNode) (s : Dimensions)
    (hsz : SizeMap.get? g.sizes i = some s) :
    (cs = [] → measureWidth g (.node i d cs) = Except.ok s.width ∧
      measureHeight g (.node i d cs) = Except.ok s.height)
    ∧ (∀ ws hs, cs ≠ [] → measureWidthList g cs = Except.ok ws →
        measureHeightList g cs = Except.ok hs →
        (resolveDirection g (.node i d cs) = .horizontal →
          measureWidth g (.node i d cs) =
            Except.ok (max s.width (ws.sum + ((cs.length : ℚ) - 1) * g.settings.gap.x)) ∧
          measureHeight g (.node i d cs) =
            Except.ok (s.height + g.settings.gap.y + listMax hs))
        ∧ (resolveDirection g (.node i d cs) = .vertical →
          measureHeight g (.node i d cs) =
            Except.ok (max s.height (hs.sum + ((cs.length : ℚ) - 1) * g.settings.gap.y)) ∧
          measureWidth g (.node i d cs) =
            Except.ok (s.width + g.settings.gap.x +
              g.settings.tuning.compression * listMax ws))) := by
  constructor
  · rintro rfl
    constructor
    · rw [measureWidth]
      simp [hsz, ensureSome, bindE_ok]
    · rw [measureHeight]
      simp [hsz, ensureSome, bindE_ok]
  · intro ws hs hne hws hhs
    have hcs : cs.isEmpty = false := by
      cases cs with
      | nil => exact absurd rfl hne
      | cons c cs => rfl
    refine ⟨fun hdir => ⟨?_, ?_⟩, fun hdir => ⟨?_, ?_⟩⟩
    · rw [measureWidth]
      simp only [hsz, ensureSome, bindE_ok, hcs, Bool.false_eq_true, if_false, hdir]
      rw [hws, bindE_ok, pureE]
    · rw [measureHeight]
      simp only [hsz, ensureSome, bindE_ok, hcs, Bool.false_eq_true, if_false, hdir]
      rw [hhs, bindE_ok, pureE]
    · rw [measureHeight]
      simp only [hsz, ensureSome, bindE_ok, hcs, Bool.false_eq_true, if_false, hdir]
      rw [hhs, bindE_ok, pureE]
    · rw [measureWidth]
      simp only [hsz, ensureSome, bindE_ok, hcs, Bool.false_eq_true, if_false, hdir]
      rw [hws, bindE_ok, pureE, Except.ok.injEq]
      ring

/-- Witness for C3 on the concrete two-child horizontal tree. -/
theorem C3_witness :
    measureWidth demoGraph demoTree = Except.ok 220 ∧
    measureHeight demoGraph demoTree = Except.ok 130 := by
  have h1 : SizeMap.get? demoGraph.sizes "r" = some ⟨100, 40⟩ := by
    simp +decide [demoGraph, demoSizes, SizeMap.get?]
  have h2 : measureWidthList demoGraph [.node "a" none [], .node "b" none []] =
      Except.ok [100, 100] := by
    simp +decide [measureWidthList, measureWidth, demoGraph, demoSizes, SizeMap.get?,
      ensureSome, bindE_ok, pureE, List.isEmpty]
  have h3 : measureHeightList demoGraph [.node "a" none [], .node "b" none []] =
      Except.ok [50, 50] := by
    simp +decide [measureHeightList, measureHeight, demoGraph, demoSizes, SizeMap.get?,
      ensureSome, bindE_ok, pureE, List.isEmpty]
  have h := (C3_measure_recursive_formulas demoGraph "r" none
      [.node "a" none [], .node "b" none []] ⟨100, 40⟩ h1).2
      [100, 100] [50, 50] (by simp) h2 h3
  have hh := h.1 rfl
  have hw := hh.1
  have hht := hh.2
  rw [show demoTree = HNode.node "r" none [.node "a" none [], .node "b" none []] from rfl]
  constructor
  · rw [hw]
    norm_num [listMax, demoGraph, demoSettings]
  · rw [hht]
    norm_num [listMax, demoGraph, demoSettings]

theorem mapE_eq_ok {f : α → β} {x : Except String α} {b : β} :
    f <$> x = Except.ok b ↔ ∃ a, x = Except.ok a ∧ f a = b := by
  cases x <;> simp [Functor.map, Except.map]

/-- Consecutive stack positions differ by half the heights of the two
adjacent siblings plus the sibling-scaled gap. -/
theorem computeStackY_succ (g : HierarchyGraph) (sY : ℚ) (j : ℕ) (hs : List ℚ) :
    computeStackY g sY (j + 1) hs =
      computeStackY g sY j hs +
        (hs.getD j 0 / 2 + g.settings.gap.y * g.settings.tuning.siblingFactor
          + hs.getD (j + 1) 0 / 2) := by
  simp [computeStackY, Finset.sum_range_succ]
  ring

/-- Each child placed by the vertical stacking loop appears in the output
with the anchor position computed from the parent left edge, its own
half-width, the indent, and `computeStackY`. -/
theorem placeChildrenStack_mem (g : HierarchyGraph) (pos : Coordinate)
    (nodeSize : Dimensions) (heights : List ℚ) (depth : ℕ) :
    ∀ (cs : List HNode) (idx : ℕ) (L : List PlacedNode),
      placeChildrenStack g pos nodeSize heights depth cs idx = Except.ok L →
      ∀ j (hj : j < cs.length),
        ∃ pn ∈ L, ∃ cSize, SizeMap.get? g.sizes (cs.get ⟨j, hj⟩).id = some cSize ∧
          pn.data = cs.get ⟨j, hj⟩ ∧ pn.depth = depth + 1 ∧
          pn.position = ⟨pos.x - nodeSize.width / 2 + cSize.width / 2
              + g.settings.tuning.indent,
            computeStackY g (pos.y + nodeSize.height / 2 + g.settings.gap.y)
              (idx + j) heights + g.settings.tuning.verticalShift⟩ := by
  intro cs
  induction cs with
  | nil =>
    intro idx L h j hj
    exact absurd hj (by simp)
  | cons c cs ih =>
    intro idx L h j hj
    rw [placeChildrenStack] at h
    simp only [bindE_eq_ok, mapE_eq_ok, ensureSome_eq_ok, pureE, Except.ok.injEq] at h
    obtain ⟨cSize, hcSize, sub, hsub, L2, hL2, hL⟩ := h
    cases j with
    | zero =>
      have hhead := placeNodes_head hsub
      cases hsubcase : sub with
      | nil =>
        rw [hsubcase] at hhead
        simp at hhead
      | cons pn subt =>
        rw [hsubcase] at hhead
        simp only [List.head?_cons, Option.some.injEq, Nat.succ_ne_zero, if_false,
          Nat.add_eq_zero, and_false, ite_false] at hhead
        refine ⟨pn, ?_, cSize, hcSize, ?_, ?_, ?_⟩
        · rw [← hL, hsubcase]
          exact List.mem_append_left _ (List.mem_cons_self _ _)
        · simp [hhead, List.get]
        · simp [hhead]
        · simp [hhead]
    | succ j' =>
      obtain ⟨pn, hmem, cSize', h1, h2, h3, h4⟩ :=
        ih (idx + 1) L2 hL2 j' (by rw [List.length_cons] at hj; omega)
      have hidx : idx + 1 + j' = idx + (j' + 1) := by omega
      rw [hidx] at h4
      exact ⟨pn, by rw [← hL]; exact List.mem_append_right _ hmem,
        cSize', h1, h2, h3, h4⟩

/-- Each child placed by the horizontal spreading loop appears in the output
at `computeSpreadX` and below the parent bottom edge plus the gap plus its
own half-height. -/
theorem placeChildrenSpread_mem (g : HierarchyGraph) (pos : Coordinate)
    (nodeSize : Dimensions) (widths : List ℚ) (depth : ℕ) :
    ∀ (cs : List HNode) (idx : ℕ) (L : List PlacedNode),
      placeChildrenSpread g pos nodeSize widths depth cs idx = Except.ok L →
      ∀ j (hj : j < cs.length),
        ∃ pn ∈ L, ∃ cSize, SizeMap.get? g.sizes (cs.get ⟨j, hj⟩).id = some cSize ∧
          pn.data = cs.get ⟨j, hj⟩ ∧ pn.depth = depth + 1 ∧
          pn.position = ⟨computeSpreadX g pos.x (idx + j) widths,
            pos.y + nodeSize.height / 2 + g.settings.gap.y + cSize.height / 2⟩ := by
  intro cs
  induction cs with
  | nil =>
    intro idx L h j hj
    exact absurd hj (by simp)
  | cons c cs ih =>
    intro idx L h j hj
    rw [placeChildrenSpread] at h
    simp only [bindE_eq_ok, mapE_eq_ok, ensureSome_eq_ok, pureE, Except.ok.injEq] at h
    obtain ⟨cSize, hcSize, sub, hsub, L2, hL2, hL⟩ := h
    cases j with
    | zero =>
      have hhead := placeNodes_head hsub
      cases hsubcase : sub with
      | nil =>
        rw [hsubcase] at hhead
        simp at hhead
      | cons pn subt =>
        rw [hsubcase] at hhead
        simp only [List.head?_cons, Option.some.injEq, Nat.succ_ne_zero, if_false,
          Nat.add_eq_zero, and_false, ite_false] at hhead
        refine ⟨pn, ?_, cSize, hcSize, ?_, ?_, ?_⟩
        · rw [← hL, hsubcase]
          exact List.mem_append_left _ (List.mem_cons_self _ _)
        · simp [hhead, List.get]
        · simp [hhead]
        · simp [hhead]
    | succ j' =>
      obtain ⟨pn, hmem, cSize', h1, h2, h3, h4⟩ :=
        ih (idx + 1) L2 hL2 j' (by rw [List.length_cons] at hj; omega)
      have hidx : idx + 1 + j' = idx + (j' + 1) := by omega
      rw [hidx] at h4
      exact ⟨pn, by rw [← hL]; exact List.mem_append_right _ hmem,
        cSize', h1, h2, h3, h4⟩

/-- Claim C4: for a parent with resolved vertical direction, every placed
child sits at the parent left edge plus its own registered half-width plus
the indent, at `computeStackY` plus the vertical shift; the centre Y
coordinates of adjacent siblings differ by `height[j]/2 + gap.y·siblingFactor +
height[j+1]/2` over the measured subtree heights. -/
theorem C4_vertical_stack_geometry (g : HierarchyGraph) (i : String) (d : Option Direction)
    (cs : List HNode) (depth : ℕ) (anchor : Coordinate) (l : List PlacedNode)
    (heights : List ℚ) (nodeSize : Dimensions) (pos : Coordinate)
    (hdir : resolveDirection g (HNode.node i d cs) = .vertical)
    (hsz : SizeMap.get? g.sizes i = some nodeSize)
    (hh : measureHeightList g cs = Except.ok heights)
    (hplace : placeNodes g (HNode.node i d cs) depth anchor = Except.ok l)
    (hpos : pos = if depth = 0 then ⟨0, 0⟩ else anchor) :
    (∀ j (hj : j < cs.length), ∃ pn ∈ l, ∃ cSize,
      SizeMap.get? g.sizes (cs.get ⟨j, hj⟩).id = some cSize ∧
      pn.data = cs.get ⟨j, hj⟩ ∧ pn.depth = depth + 1 ∧
      pn.position.x = pos.x - nodeSize.width / 2 + cSize.width / 2
        + g.settings.tuning.indent ∧
      pn.position.y = computeStackY g (pos.y + nodeSize.height / 2 + g.settings.gap.y)
        j heights + g.settings.tuning.verticalShift)
    ∧ (∀ j (hj : j + 1 < cs.length), ∃ p ∈ l, ∃ q ∈ l,
      p.data = cs.get ⟨j, by omega⟩ ∧ q.data = cs.get ⟨j + 1, hj⟩ ∧
      q.position.y - p.position.y
        = heights.getD j 0 / 2 + g.settings.gap.y * g.settings.tuning.siblingFactor
          + heights.getD (j + 1) 0 / 2) := by
  subst hpos
  by_cases hcs : cs = []
  · subst hcs
    exact ⟨fun j hj => absurd hj (by simp), fun j hj => absurd hj (by simp)⟩
  · have hcs' : cs.isEmpty = false := by
      cases cs with
      | nil => exact absurd rfl hcs
      | cons c cs => rfl
    rw [placeNodes] at hplace
    simp only [bindE_eq_ok, ensureSome_eq_ok, mapE_eq_ok, pureE, Except.ok.injEq,
      hcs', Bool.false_eq_true, if_false, hdir] at hplace
    obtain ⟨nodeSize2, hsz2, heights2, hh2, L, hL, hlist⟩ := hplace
    rw [hsz, Option.some.injEq] at hsz2
    subst hsz2
    rw [hh, Except.ok.injEq] at hh2
    subst hh2
    have hmem := placeChildrenStack_mem g (if depth = 0 then ⟨0, 0⟩ else anchor)
      nodeSize heights depth cs 0 L hL
    constructor
    · intro j hj
      obtain ⟨pn, hpmem, cSize, h1, h2, h3, h4⟩ := hmem j hj
      refine ⟨pn, ?_, cSize, h1, h2, h3, ?_, ?_⟩
      · rw [← hlist]
        exact List.mem_cons_of_mem _ hpmem
      · rw [h4]
      · rw [h4]
        simp
    · intro j hj
      obtain ⟨p, hpmem, cS1, _, hpd, _, hp4⟩ := hmem j (by omega)
      obtain ⟨q, hqmem, cS2, _, hqd, _, hq4⟩ := hmem (j + 1) hj
      refine ⟨p, ?_, q, ?_, hpd, hqd, ?_⟩
      · rw [← hlist]
        exact List.mem_cons_of_mem _ hpmem
      · rw [← hlist]
        exact List.mem_cons_of_mem _ hqmem
      · rw [hp4, hq4]
        simp only [Nat.zero_add]
        rw [computeStackY_succ]
        ring

/-! Fixtures for the vertical-stack witness. -/

def stackSizes : SizeMap := [("r", ⟨100, 40⟩), ("a", ⟨80, 50⟩), ("b", ⟨60, 30⟩)]

def stackSettings : Settings := ⟨⟨20, 60⟩, .horizontal, ⟨60, -25, 2 / 5, 1 / 2⟩, ⟨⟨0, 20⟩⟩⟩

def stackGraph : HierarchyGraph := ⟨stackSettings, stackSizes⟩

def stackTree : HNode := .node "r" (some .vertical) [.node "a" none [], .node "b" none []]

/-- The concrete placement of the vertical fixture. -/
def stackPlaced : List PlacedNode :=
  [⟨stackTree, ⟨0, 0⟩, 0⟩, ⟨.node "a" none [], ⟨50, 80⟩, 1⟩,
   ⟨.node "b" none [], ⟨40, 150⟩, 1⟩]

/-- Witness for C4 on the concrete vertical fixture: the centres of the two
siblings differ in Y by 50/2 + 60·0.5 + 30/2 = 70. -/
theorem C4_witness :
    ∃ p ∈ stackPlaced, ∃ q ∈ stackPlaced,
      p.data = HNode.node "a" none [] ∧ q.data = HNode.node "b" none [] ∧
      q.position.y - p.position.y = 70 := by
  have hdir : resolveDirection stackGraph stackTree = .vertical := rfl
  have hsz : SizeMap.get? stackGraph.sizes "r" = some ⟨100, 40⟩ := by
    simp +decide [stackGraph, stackSizes, SizeMap.get?]
  have hh : measureHeightList stackGraph [.node "a" none [], .node "b" none []] =
      Except.ok [50, 30] := by
    simp +decide [measureHeightList, measureHeight, stackGraph, stackSizes,
      SizeMap.get?, ensureSome, bindE_ok, pureE, List.isEmpty]
  have hplace : placeNodes stackGraph stackTree 0 ⟨0, 0⟩ = Except.ok stackPlaced := by
    simp +decide [placeNodes, placeChildrenStack, placeChildrenSpread, measureHeightList,
      measureHeight, computeStackY, stackGraph, stackSettings, stackSizes, stackTree,
      stackPlaced, SizeMap.get?, ensureSome, bindE_ok, pureE, List.isEmpty, HNode.id,
      HNode.direction, HNode.children, resolveDirection, Finset.sum_range_succ,
      Finset.sum_range_zero]
    norm_num
  have h := (C4_vertical_stack_geometry stackGraph "r" (some .vertical)
    [.node "a" none [], .node "b" none []] 0 ⟨0, 0⟩ stackPlaced [50, 30] ⟨100, 40⟩
    ⟨0, 0⟩ hdir hsz hh hplace (by simp)).2 0 (by norm_num)
  norm_num [List.get, List.getD, stackGraph, stackSettings] at h
  exact h

/-- Parameterised fixture for the C5 scenario: a root of size rW×rH with two
100×50 children under horizontal spread and `gap = {x: 20, y: gy}`. -/
def spreadGraph (rW rH gy : ℚ) : HierarchyGraph :=
  ⟨⟨⟨20, gy⟩, .horizontal, ⟨60, -25, 2 / 5, 833 / 1000⟩, ⟨⟨0, 20⟩⟩⟩,
   [("r", ⟨rW, rH⟩), ("a", ⟨100, 50⟩), ("b", ⟨100, 50⟩)]⟩

/-- Claim C5: under horizontal spread a single child is centred exactly at
the parent X; in general child `j` sits at the parent centre minus half of
(sum of subtree widths + gaps) plus its cumulative offset plus half its own
subtree width, with Y = parent bottom edge + gap.y + half its registered
height; in particular two 100×50 children with gap.x = 20 land at
x = −60 and x = +60 with y = rootHeight/2 + gap.y + 25. -/
theorem C5_horizontal_spread_geometry :
    (∀ (g : HierarchyGraph) (px : ℚ) (idx : ℕ) (ws : List ℚ),
      ws.length = 1 → computeSpreadX g px idx ws = px)
    ∧ (∀ (g : HierarchyGraph) (px : ℚ) (idx : ℕ) (ws : List ℚ), ws.length ≠ 1 →
      computeSpreadX g px idx ws =
        px - (ws.sum + ((ws.length : ℚ) - 1) * g.settings.gap.x) / 2
          + (Finset.range idx).sum (fun k => ws.getD k 0 + g.settings.gap.x)
          + ws.getD idx 0 / 2)
    ∧ (∀ (g : HierarchyGraph) (i : String) (d : Option Direction) (cs : List HNode)
        (depth : ℕ) (anchor : Coordinate) (l : List PlacedNode) (widths : List ℚ)
        (nodeSize : Dimensions) (pos : Coordinate),
      resolveDirection g (HNode.node i d cs) = .horizontal →
      SizeMap.get? g.sizes i = some nodeSize →
      measureWidthList g cs = Except.ok widths →
      placeNodes g (HNode.node i d cs) depth anchor = Except.ok l →
      pos = (if depth = 0 then ⟨0, 0⟩ else anchor) →
      ∀ j (hj : j < cs.length), ∃ pn ∈ l, ∃ cSize,
        SizeMap.get? g.sizes (cs.get ⟨j, hj⟩).id = some cSize ∧
        pn.data = cs.get ⟨j, hj⟩ ∧ pn.depth = depth + 1 ∧
        pn.position.x = computeSpreadX g pos.x j widths ∧
        pn.position.y = pos.y + nodeSize.height / 2 + g.settings.gap.y
          + cSize.height / 2)
    ∧ (∀ rW rH gy : ℚ,
      placeNodes (spreadGraph rW rH gy) demoTree 0 ⟨0, 0⟩ = Except.ok
        [⟨demoTree, ⟨0, 0⟩, 0⟩,
         ⟨.node "a" none [], ⟨-60, rH / 2 + gy + 25⟩, 1⟩,
         ⟨.node "b" none [], ⟨60, rH / 2 + gy + 25⟩, 1⟩]) := by
  refine ⟨?_, ?_, ?_, ?_⟩
  · intro g px idx ws hlen
    rw [computeSpreadX, if_pos hlen]
  · intro g px idx ws hlen
    rw [computeSpreadX, if_neg hlen]
  · intro g i d cs depth anchor l widths nodeSize pos hdir hsz hw hplace hpos
    subst hpos
    intro j hj
    have hcs : cs ≠ [] := by
      intro hnil
      subst hnil
      simp at hj
    have hcs' : cs.isEmpty = false := by
      cases cs with
      | nil => exact absurd rfl hcs
      | cons c cs => rfl
    rw [placeNodes] at hplace
    simp only [bindE_eq_ok, ensureSome_eq_ok, mapE_eq_ok, pureE, Except.ok.injEq,
      hcs', Bool.false_eq_true, if_false, hdir] at hplace
    obtain ⟨nodeSize2, hsz2, widths2, hw2, L, hL, hlist⟩ := hplace
    rw [hsz, Option.some.injEq] at hsz2
    subst hsz2
    rw [hw, Except.ok.injEq] at hw2
    subst hw2
    obtain ⟨pn, hpmem, cSize, h1, h2, h3, h4⟩ := placeChildrenSpread_mem g
      (if depth = 0 then ⟨0, 0⟩ else anchor) nodeSize widths depth cs 0 L hL j hj
    refine ⟨pn, ?_, cSize, h1, h2, h3, ?_, ?_⟩
    · rw [← hlist]
      exact List.mem_cons_of_mem _ hpmem
    · rw [h4]
      simp
    · rw [h4]
  · intro rW rH gy
    simp +decide [placeNodes, placeChildrenSpread, measureWidthList, measureWidth,
      computeSpreadX, spreadGraph, demoTree, SizeMap.get?, ensureSome, bindE_ok,
      pureE, List.isEmpty, HNode.id, HNode.direction, HNode.children,
      resolveDirection, Finset.sum_range_succ, Finset.sum_range_zero]
    norm_num

/-- Witness for C5: the singleton centring law at a concrete input, and the
concrete two-child scenario at rW = 100, rH = 40, gy = 40. -/
theorem C5_witness :
    computeSpreadX demoGraph 5 0 [7] = 5 ∧
    placeNodes (spreadGraph 100 40 40) demoTree 0 ⟨0, 0⟩ = Except.ok
      [⟨demoTree, ⟨0, 0⟩, 0⟩,
       ⟨.node "a" none [], ⟨-60, 85⟩, 1⟩,
       ⟨.node "b" none [], ⟨60, 85⟩, 1⟩] := by
  have h1 := C5_horizontal_spread_geometry.1 demoGraph 5 0 [7] rfl
  have h4 := C5_horizontal_spread_geometry.2.2.2 100 40 40
  norm_num at h4
  exact ⟨h1, h4⟩

/-- The `entry` local of `roundCorner`: the point `r1 = min(BEND_RADIUS,
dist1/2)` short of the corner along the incoming segment. -/
def rcEntry (prev corner : Coordinate) : Coordinate :=
  let dx1 := corner.x - prev.x
  let dy1 := corner.y - prev.y
  let dist1 := segLen dx1 dy1
  let r1 := min BEND_RADIUS (dist1 / 2)
  let t1 := (dist1 - r1) / dist1
  ⟨prev.x + dx1 * t1, prev.y + dy1 * t1⟩

/-- The `exit` local of `roundCorner`: the point `r2 = min(BEND_RADIUS,
dist2/2)` past the corner along the outgoing segment. -/
def rcExit (corner next : Coordinate) : Coordinate :=
  let dx2 := next.x - corner.x
  let dy2 := next.y - corner.y
  let dist2 := segLen dx2 dy2
  let r2 := min BEND_RADIUS (dist2 / 2)
  let t2 := r2 / dist2
  ⟨corner.x + dx2 * t2, corner.y + dy2 * t2⟩

theorem roundCorner_eq (prev corner next : Coordinate) :
    roundCorner prev corner next =
      [lineTo (rcEntry prev corner), curveTo corner (rcExit corner next)] := rfl

theorem segLen_horiz (a : ℚ) : segLen a 0 = |a| := by
  rw [segLen, abs_zero, max_eq_left (abs_nonneg a)]

theorem segLen_vert (a : ℚ) : segLen 0 a = |a| := by
  rw [segLen, abs_zero, max_eq_right (abs_nonneg a)]

theorem radius_nonneg (L : ℚ) (hL : 0 ≤ L) : 0 ≤ min BEND_RADIUS (L / 2) :=
  le_min (by norm_num [BEND_RADIUS]) (by positivity)

theorem radius_cap (L : ℚ) (h : 64 ≤ L) : min BEND_RADIUS (L / 2) = 32 := by
  have hle : BEND_RADIUS ≤ L / 2 := by
    rw [show BEND_RADIUS = (32 : ℚ) from rfl]
    linarith
  rw [min_eq_left hle]
  rfl

theorem scaled_abs {a r : ℚ} (ha : a ≠ 0) (hr : 0 ≤ r) : |a * (r / |a|)| = r := by
  rw [abs_mul, abs_div, abs_abs, abs_of_nonneg hr]
  field_simp

theorem entry_dist (a L r : ℚ) (ha : a ≠ 0) (hL : L = |a|) (hr : 0 ≤ r) :
    |a - a * ((L - r) / L)| = r := by
  have hL0 : L ≠ 0 := by
    rw [hL]
    exact abs_ne_zero.2 ha
  have hstep : a - a * ((L - r) / L) = a * (r / L) := by
    field_simp
    ring
  rw [hstep, hL]
  exact scaled_abs ha hr

/-- Claim C7 (amended): at an orthogonal corner triple, `roundCorner` emits a
line to an entry point and a single quadratic curve whose control point is
exactly the corner; the entry point lies exactly `min(32, dist1/2)` back
along the incoming segment and the exit point exactly `min(32, dist2/2)`
forward along the outgoing segment — a radius PER ADJACENT SEGMENT, not one
radius from the shorter segment as the claim states; each radius never
exceeds the midpoint of its own segment, and when a segment has length ≥ 64 its
radius is exactly 32. -/
theorem C7_roundCorner_per_segment_radii (prev corner next : Coordinate)
    (h : isCorner prev corner next = true) :
    roundCorner prev corner next =
      [lineTo (rcEntry prev corner), curveTo corner (rcExit corner next)]
    ∧ segLen (corner.x - (rcEntry prev corner).x) (corner.y - (rcEntry prev corner).y)
        = min BEND_RADIUS (segLen (corner.x - prev.x) (corner.y - prev.y) / 2)
    ∧ segLen ((rcExit corner next).x - corner.x) ((rcExit corner next).y - corner.y)
        = min BEND_RADIUS (segLen (next.x - corner.x) (next.y - corner.y) / 2)
    ∧ (corner.x - (rcEntry prev corner).x) * (corner.y - prev.y)
        = (corner.y - (rcEntry prev corner).y) * (corner.x - prev.x)
    ∧ ((rcExit corner next).x - corner.x) * (next.y - corner.y)
        = ((rcExit corner next).y - corner.y) * (next.x - corner.x)
    ∧ min BEND_RADIUS (segLen (corner.x - prev.x) (corner.y - prev.y) / 2)
        ≤ segLen (corner.x - prev.x) (corner.y - prev.y) / 2
    ∧ min BEND_RADIUS (segLen (next.x - corner.x) (next.y - corner.y) / 2)
        ≤ segLen (next.x - corner.x) (next.y - corner.y) / 2
    ∧ (64 ≤ segLen (corner.x - prev.x) (corner.y - prev.y) →
        min BEND_RADIUS (segLen (corner.x - prev.x) (corner.y - prev.y) / 2) = 32)
    ∧ (64 ≤ segLen (next.x - corner.x) (next.y - corner.y) →
        min BEND_RADIUS (segLen (next.x - corner.x) (next.y - corner.y) / 2) = 32) := by
  simp only [isCorner, decide_eq_true_eq] at h
  refine ⟨roundCorner_eq prev corner next, ?_, ?_, ?_, ?_, min_le_right _ _,
    min_le_right _ _, fun h64 => radius_cap _ h64, fun h64 => radius_cap _ h64⟩
  · rcases h with ⟨h1, h2, h3, h4⟩ | ⟨h1, h2, h3, h4⟩
    · simp only [rcEntry, h2, segLen_horiz, zero_mul, add_zero]
      have hrw : corner.x - (prev.x + (corner.x - prev.x) *
          ((|corner.x - prev.x| - min BEND_RADIUS (|corner.x - prev.x| / 2)) /
            |corner.x - prev.x|))
          = (corner.x - prev.x) - (corner.x - prev.x) *
          ((|corner.x - prev.x| - min BEND_RADIUS (|corner.x - prev.x| / 2)) /
            |corner.x - prev.x|) := by
        ring
      rw [hrw]
      exact entry_dist _ _ _ h1 rfl (radius_nonneg _ (abs_nonneg _))
    · simp only [rcEntry, h1, segLen_vert, zero_mul, add_zero]
      have hrw : corner.y - (prev.y + (corner.y - prev.y) *
          ((|corner.y - prev.y| - min BEND_RADIUS (|corner.y - prev.y| / 2)) /
            |corner.y - prev.y|))
          = (corner.y - prev.y) - (corner.y - prev.y) *
          ((|corner.y - prev.y| - min BEND_RADIUS (|corner.y - prev.y| / 2)) /
            |corner.y - prev.y|) := by
        ring
      rw [hrw]
      exact entry_dist _ _ _ h2 rfl (radius_nonneg _ (abs_nonneg _))
  · rcases h with ⟨h1, h2, h3, h4⟩ | ⟨h1, h2, h3, h4⟩
    · simp only [rcExit, h3, segLen_vert, zero_mul, add_zero, sub_self,
        add_sub_cancel_left]
      exact scaled_abs h4 (radius_nonneg _ (abs_nonneg _))
    · simp only [rcExit, h4, segLen_horiz, zero_mul, add_zero, sub_self,
        add_sub_cancel_left]
      exact scaled_abs h3 (radius_nonneg _ (abs_nonneg _))
  · rcases h with ⟨h1, h2, h3, h4⟩ | ⟨h1, h2, h3, h4⟩
    · simp [rcEntry, h2, zero_mul, add_zero, mul_zero]
    · simp [rcEntry, h1, zero_mul, add_zero, mul_zero]
  · rcases h with ⟨h1, h2, h3, h4⟩ | ⟨h1, h2, h3, h4⟩
    · simp [rcExit, h3, zero_mul, add_zero, mul_zero]
    · simp [rcExit, h4, zero_mul, add_zero, mul_zero]

/-- Witness for C7 at a concrete corner with both segments of length ≥ 64:
entry and exit both lie exactly 32 from the corner. -/
theorem C7_witness :
    isCorner ⟨0, 0⟩ ⟨100, 0⟩ ⟨100, 80⟩ = true
    ∧ roundCorner ⟨0, 0⟩ ⟨100, 0⟩ ⟨100, 80⟩ =
        [lineTo (rcEntry ⟨0, 0⟩ ⟨100, 0⟩), curveTo ⟨100, 0⟩ (rcExit ⟨100, 0⟩ ⟨100, 80⟩)]
    ∧ rcEntry ⟨0, 0⟩ ⟨100, 0⟩ = ⟨68, 0⟩
    ∧ rcExit ⟨100, 0⟩ ⟨100, 80⟩ = ⟨100, 32⟩ := by
  have hc : isCorner ⟨0, 0⟩ ⟨100, 0⟩ ⟨100, 80⟩ = true := by
    norm_num [isCorner]
  refine ⟨hc, (C7_roundCorner_per_segment_radii ⟨0, 0⟩ ⟨100, 0⟩ ⟨100, 80⟩ hc).1, ?_, ?_⟩
  · norm_num [rcEntry, segLen, BEND_RADIUS]
  · norm_num [rcExit, segLen, BEND_RADIUS]

/-- Counterexample to C7 as stated: at the corner (0,0)→(100,0)→(100,10) the
single claim radius `min(32, shorter/2)` is 5, but the emitted entry point
(68, 0) lies 32 — not 5 — back from the corner along the incoming segment. -/
theorem C7_counterexample :
    isCorner ⟨0, 0⟩ ⟨100, 0⟩ ⟨100, 10⟩ = true
    ∧ roundCorner ⟨0, 0⟩ ⟨100, 0⟩ ⟨100, 10⟩ =
        [lineTo ⟨68, 0⟩, curveTo ⟨100, 0⟩ ⟨100, 5⟩]
    ∧ min BEND_RADIUS
        (min (segLen ((100 : ℚ) - 0) ((0 : ℚ) - 0))
          (segLen ((100 : ℚ) - 100) ((10 : ℚ) - 0)) / 2) = 5
    ∧ segLen ((100 : ℚ) - 68) ((0 : ℚ) - 0) = 32
    ∧ ((32 : ℚ) = 5 → False) := by
  refine ⟨by norm_num [isCorner], ?_, by norm_num [segLen, BEND_RADIUS],
    by norm_num [segLen], by norm_num⟩
  rw [roundCorner_eq]
  norm_num [rcEntry, rcExit, segLen, BEND_RADIUS, lineTo, curveTo]

end Flow
